import Mathlib

/-!
# Verification of the `passchecker` rule evaluation engine

Shallow embedding of `src/main.rs` (CordlessCoder/passchecker): a password
strength checker that runs four rules (minimum length, digits, special
characters, wordlist collision) and prints a pass/fail/ignored verdict per
rule plus an aggregate summary.

Modelling conventions:
* Rust `&str` / `String` become Lean `String`; `str::len()` (a UTF-8 byte
  count) is modelled by `utf8Len` below; `chars()` is `String.data`.
* `u8` CLI options are modelled as `Nat` (all uses are order comparisons,
  `min`, and defaulting, which agree with `u8` on its whole range).
* The file system is a parameter `fs : String → Option String` modelling
  `std::fs::read_to_string` (`none` = read error); paths are strings.
* The embedded wordlist file `../wordlist` is baked with
  `str_replace!(include_str!("../wordlist"), '\x0d', "")` then
  `str_split!(·, '\n')`; its raw contents are a parameter `raw`.
* `f64` similarity scores are modelled exactly as rationals `ℚ`; the only
  `f32`/`f64` values whose IEEE behaviour matters to the program's output
  classification (NaN at 0/0) are modelled by the inductive `F32Val`.
  Rust's `Display` rendering of finite floats is approximated by the `ℚ`
  repr, which no stated property depends on.
* ANSI colour styling (`owo_colors`, applied only when the stream supports
  colour) is dropped: detail strings are modelled plain, as the spec's §9
  also prescribes.
-/

/-- The four rule identifiers of the `Ignore` value enum in `main.rs`. -/
inductive Ignore where
  | MinimumChars
  | Numbers
  | SpecialChars
  | WordlistCollisions
deriving DecidableEq, Repr

/-- Debug rendering of `Ignore` (Rust `{ignore:?}` in the disabled detail). -/
def ignoreDebug : Ignore → String
  | .MinimumChars => "MinimumChars"
  | .Numbers => "Numbers"
  | .SpecialChars => "SpecialChars"
  | .WordlistCollisions => "WordlistCollisions"

/-- The CLI configuration struct (`struct Cli` in `main.rs`).  The
`password` field is resolved to a plain string before the rules run, so the
evaluation functions below take the final password separately. -/
structure Cli where
  wordlist : Option String := none
  minLength : Option Nat := none
  ignore : Option (List Ignore) := none
  similarity : Option Nat := none
deriving Repr

/-- `const DEFAULT_MIN_LENGTH: u8 = 8`. -/
def DEFAULT_MIN_LENGTH : Nat := 8

/-- UTF-8 size in bytes of one scalar value, as in Rust's `str::len`. -/
def charUtf8Size (c : Char) : Nat :=
  if c.val < 0x80 then 1
  else if c.val < 0x800 then 2
  else if c.val < 0x10000 then 3
  else 4

/-- Rust `str::len()`: the length of the string in bytes. -/
def utf8Len (s : String) : Nat :=
  s.data.foldl (fun n c => n + charUtf8Size c) 0

/-- Rust `char::is_ascii_digit`: `'0'..='9'`. -/
def isAsciiDigit (c : Char) : Bool :=
  0x30 ≤ c.val ∧ c.val ≤ 0x39

/-- Rust `char::is_ascii_punctuation`:
`'!'..='/' | ':'..='@' | '['..='`' | '\x7b'..='~'`. -/
def isAsciiPunctuation (c : Char) : Bool :=
  (0x21 ≤ c.val ∧ c.val ≤ 0x2f) ∨ (0x3a ≤ c.val ∧ c.val ≤ 0x40) ∨
  (0x5b ≤ c.val ∧ c.val ≤ 0x60) ∨ (0x7b ≤ c.val ∧ c.val ≤ 0x7e)

/-- The minimum-length test closure (`main.rs` lines 117–136): compares the
byte length `pass.len()` against `cli.min_length.unwrap_or(8)`. -/
def minLengthTest (cli : Cli) (pass : String) : Option Bool × String :=
  let min_length := cli.minLength.getD DEFAULT_MIN_LENGTH
  let len := utf8Len pass
  let outcome := decide (len ≥ min_length)
  (some outcome,
    if outcome then ""
    else s!"Password too short: {len}/{min_length} characters")

/-- The digit test closure (`main.rs` lines 141–152): passes when any
character is an ASCII digit.  The failure detail reproduces the source's
spelling `chacacters`. -/
def numbersTest (_cli : Cli) (pass : String) : Option Bool × String :=
  let outcome := pass.data.any isAsciiDigit
  (some outcome,
    if outcome then "" else "No numeric chacacters in password")

/-- The special-character test closure (`main.rs` lines 157–168): passes
when any character is ASCII punctuation. -/
def quirkyTest (_cli : Cli) (pass : String) : Option Bool × String :=
  let outcome := pass.data.any isAsciiPunctuation
  (some outcome,
    if outcome then "" else "No special chacacters in password")

/-!
## Similarity scorer

Modelled from the spec: the similarity scorer and `best_match` come from the
external `similar_string` crate, whose source is not part of this
repository.  Per §4.1 of the spec: `similarity(a, b)` is a normalized
edit-distance-family score in `[0,1]` with `similarity(x, x) = 1.0`,
realised here as the longest-common-subsequence ratio; `best_match`
(`find_best_similarity`) scans the whole corpus, retains the entry with the
strictly highest score (first occurrence wins on ties) and returns `none`
exactly on an empty corpus.  Scores are exact rationals in place of `f64`.
-/

/-- Length of a longest common subsequence of two character lists. -/
def lcsLength : List Char → List Char → Nat
  | [], _ => 0
  | _ :: _, [] => 0
  | a :: as, b :: bs =>
    if a = b then lcsLength as bs + 1
    else max (lcsLength (a :: as) bs) (lcsLength as (b :: bs))
termination_by a b => a.length + b.length
decreasing_by all_goals simp_arith

/-- Modelled from the spec (§4.1): normalized similarity score in `[0,1]`
with `similarity(x, x) = 1`, as the LCS ratio over the longer length. -/
def compareSimilarity (a b : String) : ℚ :=
  let m := max a.data.length b.data.length
  if m = 0 then 1 else (lcsLength a.data b.data : ℚ) / m

/-- One scan step of `best_match`: keep the candidate with the strictly
highest score seen so far, the first occurrence winning exact ties. -/
def bestStep (target : String) (best : Option (String × ℚ)) (opt : String) :
    Option (String × ℚ) :=
  let score := compareSimilarity target opt
  match best with
  | none => some (opt, score)
  | some (b, bscore) =>
    if score > bscore then some (opt, score) else some (b, bscore)

/-- Modelled from the spec (§4.1): `find_best_similarity` scans the entire
corpus keeping the strictly highest score, first occurrence winning ties,
and returns `none` only on an empty corpus. -/
def findBestSimilarity (target : String) (options : List String) :
    Option (String × ℚ) :=
  options.foldl (bestStep target) none

/-!
## Wordlist sources
-/

/-- `str_replace!(s, '\x0d', "")` from `const_format` (`main.rs` line 19):
replacing every carriage return by the empty string is removing every
carriage return. -/
def strReplaceCR (s : String) : String :=
  ⟨s.data.filter (fun c => c ≠ '\x0d')⟩

/-- Rust `str::split(sep)` / `const_format::str_split!` on a single
character, over character lists: splits at every occurrence of `sep`,
keeping empty segments (so the result is always nonempty). -/
def splitChar (sep : Char) : List Char → List (List Char)
  | [] => [[]]
  | c :: cs =>
    if c = sep then [] :: splitChar sep cs
    else
      match splitChar sep cs with
      | [] => [[c]]
      | h :: t => (c :: h) :: t

/-- The embedded wordlist (`static WORDLIST`, `main.rs` lines 18–21):
the raw file contents with every carriage return removed, split on
newlines. -/
def internalWordlist (raw : String) : List String :=
  (splitChar '\n' (strReplaceCR raw).data).map fun l => ⟨l⟩

/-- Rust `str::lines()` (used on the external wordlist blob, `main.rs`
line 207).  Per its documentation: lines are split at `\n` or `\r\n`
terminators, the final terminator is optional, and a carriage return not
immediately followed by a line feed stays in the produced line.  `cur`
accumulates the current line in reverse. -/
def rustLinesCore (cur : List Char) : List Char → List (List Char)
  | [] => if cur.isEmpty then [] else [cur.reverse]
  | c :: rest =>
    if c = '\n' then
      (match cur with
        | '\x0d' :: cs => cs.reverse
        | cs => cs.reverse) :: rustLinesCore [] rest
    else rustLinesCore (c :: cur) rest

/-- Rust `str::lines()` on a string. -/
def rustLines (s : String) : List String :=
  (rustLinesCore [] s.data).map fun l => ⟨l⟩

/-- The two wordlist variants (`enum WordlistType`), already resolved to
their line sequences. -/
inductive WordlistType where
  | Internal (lines : List String)
  | External (content : String)

/-- The collision threshold `cli.similarity.unwrap_or(97).min(99) as f64 /
100.0` (`main.rs` line 222), as an exact rational. -/
def collisionThreshold (cli : Cli) : ℚ :=
  ((min (cli.similarity.getD 97) 99 : Nat) : ℚ) / 100

/-- The best-match detail `"Best match in wordlist is {checkpass} with
similarity {similarity*100}%"` (`main.rs` lines 197–201 and 209–213); the
score rendering stands in for Rust's `f64` `Display`. -/
def bestMatchMsg (checkpass : String) (similarity : ℚ) : String :=
  let pct := toString (similarity * 100)
  s!"Best match in wordlist is {checkpass} with similarity {pct}%"

/-- The shared tail of the two `match wordlist` arms of the collision test
(`main.rs` lines 193–225): run `find_best_similarity`, overwrite `info`
with the best-match message when there is a match, and pass exactly when
there is a match whose score is strictly below the threshold. -/
def wordlistOutcome (cli : Cli) (pass : String) (lines : List String)
    (info0 : String) : Option Bool × String :=
  let best := findBestSimilarity pass lines
  let info :=
    match best with
    | some (checkpass, similarity) => bestMatchMsg checkpass similarity
    | none => info0
  let outcome :=
    match best with
    | none => false
    | some (_, score) => decide (score < collisionThreshold cli)
  (some outcome, info)

/-- The note printed when no wordlist path is given (`main.rs` lines
184–188). -/
def internalNote : String :=
  "No wordlist provided, defaulting to internal wordlist(10k most common passwords)."

/-- The detail on an unreadable wordlist path (`main.rs` line 179). -/
def readFailMsg (path : String) : String :=
  "Failed to read file \x27" ++ path ++ "\x27. Aborting."

/-- The wordlist-collision test closure (`main.rs` lines 173–226).  `fs`
models `read_to_string`; `raw` is the embedded wordlist file's raw
contents. -/
def collisionsTest (fs : String → Option String) (raw : String)
    (cli : Cli) (pass : String) : Option Bool × String :=
  match cli.wordlist with
  | some wordlist_path =>
    match fs wordlist_path with
    | none => (some false, readFailMsg wordlist_path)
    | some content => wordlistOutcome cli pass (rustLines content) ""
  | none => wordlistOutcome cli pass (internalWordlist raw) internalNote

/-!
## Rule set evaluator (`fn main`, lines 109–303)
-/

/-- One entry of the `tests` array: display name, test closure, and the
`Ignore` identifier checked against `cli.ignore`. -/
structure Test where
  name : String
  test : Cli → String → Option Bool × String
  ignore : Ignore

/-- The fixed `tests` array (`main.rs` lines 109–229), in declaration
order.  Display names are modelled plain (colour styling dropped). -/
def testsList (fs : String → Option String) (raw : String) : List Test :=
  [ ⟨"At least n characters", minLengthTest, .MinimumChars⟩,
    ⟨"numbers", numbersTest, .Numbers⟩,
    ⟨"quirky characters", quirkyTest, .SpecialChars⟩,
    ⟨"collisions in wordlist", collisionsTest fs raw, .WordlistCollisions⟩ ]

/-- The ignore check `cli.ignore.as_deref().map(|x| x.contains(&ignore)) ==
Some(true)` (`main.rs` line 252). -/
def ignoredIn (cli : Cli) (ig : Ignore) : Bool :=
  match cli.ignore with
  | some l => l.contains ig
  | none => false

/-- One iteration of the evaluation loop (`main.rs` lines 250–256): an
ignored rule's closure is not invoked and its outcome is `None`; otherwise
the closure runs. -/
def runTest (cli : Cli) (pass : String) (t : Test) : Option Bool × String :=
  if ignoredIn cli t.ignore then
    (none, s!"disabled with -i {ignoreDebug t.ignore}")
  else t.test cli pass

/-- All four per-rule results of one evaluation run, in order. -/
def runAll (fs : String → Option String) (raw : String) (cli : Cli)
    (pass : String) : List (Option Bool × String) :=
  (testsList fs raw).map (runTest cli pass)

/-- `successes` (`main.rs` lines 239–294): the number of rules whose
outcome is `Some(true)` (`outcome.unwrap_or(false)` drives the filter). -/
def successCount (fs : String → Option String) (raw : String) (cli : Cli)
    (pass : String) : Nat :=
  (runAll fs raw cli pass).countP fun r => r.1 = some true

/-- `enabled_count` (`main.rs` lines 288–290): the number of rules whose
outcome is `Some(_)`, i.e. that were actually evaluated. -/
def enabledCount (fs : String → Option String) (raw : String) (cli : Cli)
    (pass : String) : Nat :=
  (runAll fs raw cli pass).countP fun r => r.1.isSome

/-- The number of rules whose outcome is `None` (ignored). -/
def ignoredOutcomeCount (fs : String → Option String) (raw : String)
    (cli : Cli) (pass : String) : Nat :=
  (runAll fs raw cli pass).countP fun r => r.1 = none

/-- `tests.len()`. -/
def totalTests (fs : String → Option String) (raw : String) : Nat :=
  (testsList fs raw).length

/-- The value class of an IEEE `f32` expression, keeping finite values as
exact rationals: all the program's float behaviour the summary line depends
on is the NaN/infinity classification of `successes / enabled * 100`. -/
inductive F32Val where
  | nan
  | inf
  | val (q : ℚ)
deriving DecidableEq, Repr

/-- `successes as f32 / enabled_count as f32 * 100.0` (`main.rs` line 299):
IEEE division `0.0 / 0.0` is NaN, `s / 0.0` with `s > 0` is `+∞`; finite
quotients are kept exact (their rounding is irrelevant here). -/
def percentF32 (successes enabled : Nat) : F32Val :=
  if enabled = 0 then
    if successes = 0 then .nan else .inf
  else .val ((successes : ℚ) / enabled * 100)

/-- Rendering of the percentage: Rust formats an `f32` NaN as `"NaN"` and
positive infinity as `"inf"`; the finite rendering stands in for Rust's
float `Display`. -/
def formatF32 : F32Val → String
  | .nan => "NaN"
  | .inf => "inf"
  | .val q => toString q

/-- The summary line `"Passed {successes} out of {enabled_count} tests
({percent}%), {ignored} ignored"` (`main.rs` lines 295–302), where
`ignored = tests.len() - enabled_count`. -/
def summaryLine (fs : String → Option String) (raw : String) (cli : Cli)
    (pass : String) : String :=
  let successes := successCount fs raw cli pass
  let enabled := enabledCount fs raw cli pass
  let pct := formatF32 (percentF32 successes enabled)
  let ignored := totalTests fs raw - enabled
  s!"Passed {successes} out of {enabled} tests ({pct}%), {ignored} ignored"

/-- The corpus the collision test ends up scanning, as resolved from the
configuration (`main.rs` lines 176–190 together with the line splits of
lines 194 and 207): an external path maps through `read_to_string` and
`lines()` (`none` on a read failure), no path yields the embedded list. -/
def corpusOf (fs : String → Option String) (raw : String) (cli : Cli) :
    Option (List String) :=
  match cli.wordlist with
  | some path => (fs path).map rustLines
  | none => some (internalWordlist raw)

/-- Strip one trailing carriage return, if any. -/
def stripOneCR (l : List Char) : List Char :=
  if l.getLast? = some '\x0d' then l.dropLast else l

/-- The spec's description of external wordlist splitting (§3, §4.2:
"split into lines on newline boundaries, lines otherwise used verbatim (no
trimming beyond line-ending normalization)"), sharpened to what the
counterexample forces: split at every newline, normalize a `\x0d\x0a` line
ending by stripping one trailing carriage return from every
newline-terminated segment, keep a final unterminated segment verbatim and
drop a final empty segment. -/
def altLinesCore (l : List Char) : List (List Char) :=
  let parts := splitChar '\n' l
  (parts.dropLast.map stripOneCR) ++
    match parts.getLast? with
    | none => []
    | some [] => []
    | some lst => [lst]

/-- `altLinesCore` on a string, for comparison with `rustLines`. -/
def altLines (s : String) : List String :=
  (altLinesCore s.data).map fun l => ⟨l⟩

/-!
## Supporting lemmas
-/

theorem lcsLength_nil_left (b : List Char) : lcsLength [] b = 0 := by
  simp [lcsLength]

theorem lcsLength_nil_right (a : List Char) : lcsLength a [] = 0 := by
  cases a <;> simp [lcsLength]

theorem lcsLength_cons_cons (a : Char) (as : List Char) (b : Char)
    (bs : List Char) :
    lcsLength (a :: as) (b :: bs) =
      if a = b then lcsLength as bs + 1
      else max (lcsLength (a :: as) bs) (lcsLength as (b :: bs)) := by
  simp [lcsLength]

theorem lcsLength_self (l : List Char) : lcsLength l l = l.length := by
  induction l with
  | nil => simp [lcsLength_nil_left]
  | cons c cs ih => simp [lcsLength_cons_cons, ih]

theorem lcsLength_le_left (a : List Char) : ∀ b, lcsLength a b ≤ a.length := by
  induction a with
  | nil => intro b; simp [lcsLength_nil_left]
  | cons x xs ihA =>
    intro b
    induction b with
    | nil => simp [lcsLength_nil_right]
    | cons y ys ihB =>
      rw [lcsLength_cons_cons]
      by_cases hxy : x = y
      · rw [if_pos hxy]
        exact Nat.succ_le_succ (ihA ys)
      · rw [if_neg hxy]
        refine max_le ihB (le_trans (ihA (y :: ys)) ?_)
        simp

theorem compareSimilarity_self (s : String) : compareSimilarity s s = 1 := by
  show (if max s.data.length s.data.length = 0 then (1 : ℚ)
    else (lcsLength s.data s.data : ℚ) / (max s.data.length s.data.length)) = 1
  rw [max_self, lcsLength_self]
  by_cases h : s.data.length = 0
  · rw [if_pos h]
  · rw [if_neg h]
    exact div_self (by exact_mod_cast h)

theorem compareSimilarity_le_one (a b : String) : compareSimilarity a b ≤ 1 := by
  show (if max a.data.length b.data.length = 0 then (1 : ℚ)
    else (lcsLength a.data b.data : ℚ) / (max a.data.length b.data.length)) ≤ 1
  by_cases h : max a.data.length b.data.length = 0
  · rw [if_pos h]
  · rw [if_neg h]
    have hpos : (0 : ℚ) < (max a.data.length b.data.length : Nat) := by
      exact_mod_cast Nat.pos_of_ne_zero h
    rw [div_le_one hpos]
    have hle : lcsLength a.data b.data ≤ max a.data.length b.data.length :=
      le_trans (lcsLength_le_left a.data b.data) (le_max_left _ _)
    exact_mod_cast hle

theorem foldBest_some (t : String) (opts : List String) :
    ∀ b : String × ℚ, ∃ e sc,
      opts.foldl (bestStep t) (some b) = some (e, sc) ∧ b.2 ≤ sc ∧
      ∀ o ∈ opts, compareSimilarity t o ≤ sc := by
  induction opts with
  | nil => exact fun b => ⟨b.1, b.2, rfl, le_refl _, by simp⟩
  | cons o os ih =>
    intro b
    obtain ⟨bn, bs⟩ := b
    by_cases h : compareSimilarity t o > bs
    · obtain ⟨e, sc, h1, h2, h3⟩ := ih (o, compareSimilarity t o)
      refine ⟨e, sc, ?_, le_trans (le_of_lt h) h2, ?_⟩
      · simpa [List.foldl_cons, bestStep, h] using h1
      · intro o2 ho2
        rcases List.mem_cons.mp ho2 with rfl | hmem
        · exact h2
        · exact h3 o2 hmem
    · obtain ⟨e, sc, h1, h2, h3⟩ := ih (bn, bs)
      refine ⟨e, sc, ?_, h2, ?_⟩
      · simpa [List.foldl_cons, bestStep, h] using h1
      · intro o2 ho2
        rcases List.mem_cons.mp ho2 with rfl | hmem
        · exact le_trans (le_of_not_lt h) h2
        · exact h3 o2 hmem

theorem findBestSimilarity_of_ne_nil (t : String) (opts : List String)
    (h : opts ≠ []) : ∃ e sc,
      findBestSimilarity t opts = some (e, sc) ∧
      ∀ o ∈ opts, compareSimilarity t o ≤ sc := by
  match opts, h with
  | o :: os, _ =>
    obtain ⟨e, sc, h1, h2, h3⟩ := foldBest_some t os (o, compareSimilarity t o)
    refine ⟨e, sc, ?_, ?_⟩
    · simpa [findBestSimilarity, bestStep] using h1
    · intro o2 ho2
      rcases List.mem_cons.mp ho2 with rfl | hmem
      · exact h2
      · exact h3 o2 hmem

theorem findBestSimilarity_nil (t : String) : findBestSimilarity t [] = none :=
  rfl

theorem findBestSimilarity_none_iff (t : String) (opts : List String) :
    findBestSimilarity t opts = none ↔ opts = [] := by
  constructor
  · intro h
    by_contra hne
    obtain ⟨e, sc, h1, _⟩ := findBestSimilarity_of_ne_nil t opts hne
    rw [h1] at h
    cases h
  · rintro rfl
    rfl

theorem splitChar_ne_nil (sep : Char) : ∀ l, splitChar sep l ≠ [] := by
  intro l
  cases l with
  | nil => simp [splitChar]
  | cons c cs =>
    by_cases h : c = sep
    · simp [splitChar, h]
    · simp only [splitChar, h, if_neg, not_false_iff]
      cases splitChar sep cs <;> simp

theorem splitChar_of_not_mem (sep : Char) :
    ∀ l, sep ∉ l → splitChar sep l = [l] := by
  intro l
  induction l with
  | nil => intro _; rfl
  | cons c cs ih =>
    intro h
    have hc : c ≠ sep := fun he => h (he ▸ List.mem_cons_self c cs)
    have hcs : sep ∉ cs := fun hm => h (List.mem_cons_of_mem c hm)
    simp [splitChar, hc, ih hcs]

theorem splitChar_append (sep : Char) :
    ∀ pre rest, sep ∉ pre →
      splitChar sep (pre ++ sep :: rest) = pre :: splitChar sep rest := by
  intro pre
  induction pre with
  | nil => intro rest _; simp [splitChar]
  | cons c pre ih =>
    intro rest h
    have hc : c ≠ sep := fun he => h (he ▸ List.mem_cons_self c pre)
    have hpre : sep ∉ pre := fun hm => h (List.mem_cons_of_mem c hm)
    simp [splitChar, hc, ih rest hpre]

theorem splitChar_mem_subset (sep : Char) :
    ∀ l part, part ∈ splitChar sep l → ∀ c ∈ part, c ∈ l := by
  intro l
  induction l with
  | nil =>
    intro part hp c hc
    simp [splitChar] at hp
    subst hp
    cases hc
  | cons x xs ih =>
    intro part hp c hc
    by_cases hx : x = sep
    · rw [splitChar, if_pos hx] at hp
      rcases List.mem_cons.mp hp with rfl | hmem
      · cases hc
      · exact List.mem_cons_of_mem x (ih part hmem c hc)
    · rw [splitChar, if_neg hx] at hp
      rcases hsplit : splitChar sep xs with _ | ⟨h1, t1⟩
      · exact absurd hsplit (splitChar_ne_nil sep xs)
      · rw [hsplit] at hp
        rcases List.mem_cons.mp hp with rfl | hmem
        · rcases List.mem_cons.mp hc with rfl | hc2
          · exact List.mem_cons_self c xs
          · have : h1 ∈ splitChar sep xs := hsplit ▸ List.mem_cons_self h1 t1
            exact List.mem_cons_of_mem x (ih h1 this c hc2)
        · have : part ∈ splitChar sep xs := hsplit ▸ List.mem_cons_of_mem h1 hmem
          exact List.mem_cons_of_mem x (ih part this c hc)

theorem internalWordlist_no_cr (raw : String) :
    ∀ l ∈ internalWordlist raw, '\x0d' ∉ l.data := by
  intro l hl
  obtain ⟨part, hpart, rfl⟩ := List.mem_map.mp hl
  intro hcr
  have hmem : '\x0d' ∈ (strReplaceCR raw).data :=
    splitChar_mem_subset '\n' (strReplaceCR raw).data part hpart '\x0d' hcr
  have : '\x0d' ∈ raw.data.filter (fun c => c ≠ '\x0d') := hmem
  have := List.of_mem_filter this
  simp at this

theorem stripOneCR_concat_cr (l : List Char) :
    stripOneCR (l ++ ['\x0d']) = l := by
  unfold stripOneCR
  rw [List.getLast?_concat, if_pos rfl, List.dropLast_concat]

theorem stripOneCR_concat_ne (l : List Char) (c : Char) (h : c ≠ '\x0d') :
    stripOneCR (l ++ [c]) = l ++ [c] := by
  unfold stripOneCR
  rw [List.getLast?_concat, if_neg (by simpa using h)]

theorem stripOneCR_of_reverse (pre : List Char) :
    (match pre.reverse with
      | '\x0d' :: cs => cs.reverse
      | cs => cs.reverse) = stripOneCR pre := by
  rcases hrev : pre.reverse with _ | ⟨c, cs⟩
  · have : pre = [] := by simpa using congrArg List.reverse hrev
    subst this
    rfl
  · have hpre : pre = cs.reverse ++ [c] := by
      have := congrArg List.reverse hrev
      simpa using this
    split
    · rename_i cs2 heq
      have hc : c = '\x0d' := (List.cons.injEq _ _ _ _ ▸ heq).1
      have hcs : cs = cs2 := (List.cons.injEq _ _ _ _ ▸ heq).2
      subst hc
      subst hcs
      rw [hpre, stripOneCR_concat_cr]
    · rename_i hne
      have hc : c ≠ '\x0d' := by
        intro he
        exact hne cs (by rw [he])
      rw [hpre, stripOneCR_concat_ne _ _ hc]
      simp [hrev, hpre]

theorem altLinesCore_split (pre rest : List Char) (h : '\n' ∉ pre) :
    altLinesCore (pre ++ '\n' :: rest) = stripOneCR pre :: altLinesCore rest := by
  unfold altLinesCore
  rw [splitChar_append '\n' pre rest h]
  rcases hps : splitChar '\n' rest with _ | ⟨p1, pt⟩
  · exact absurd hps (splitChar_ne_nil _ _)
  · simp [List.dropLast]

theorem rustLinesCore_eq_alt (l : List Char) :
    ∀ pre : List Char, '\n' ∉ pre →
      rustLinesCore pre.reverse l = altLinesCore (pre ++ l) := by
  induction l with
  | nil =>
    intro pre h
    rw [List.append_nil]
    show (if pre.reverse.isEmpty then [] else [pre.reverse.reverse]) =
      altLinesCore pre
    unfold altLinesCore
    rw [splitChar_of_not_mem '\n' pre h]
    cases pre with
    | nil => simp
    | cons c cs => simp
  | cons c cs ih =>
    intro pre h
    by_cases hc : c = '\n'
    · subst hc
      simp only [rustLinesCore, if_pos]
      rw [stripOneCR_of_reverse, altLinesCore_split pre cs h]
      have h2 := ih [] (by simp)
      simp only [List.reverse_nil, List.nil_append] at h2
      rw [h2]
    · simp only [rustLinesCore, if_neg hc]
      have hrev : c :: pre.reverse = (pre ++ [c]).reverse := by simp
      have h2 : '\n' ∉ pre ++ [c] := by
        intro hmem
        rcases List.mem_append.mp hmem with hm | hm
        · exact h hm
        · simp at hm
          exact hc hm.symm
      rw [hrev, ih (pre ++ [c]) h2, List.append_assoc]
      rfl

theorem rustLines_eq_altLines (s : String) : rustLines s = altLines s := by
  unfold rustLines altLines
  have h := rustLinesCore_eq_alt s.data [] (by simp)
  simp only [List.reverse_nil, List.nil_append] at h
  rw [h]

theorem countP_le_of_imp {α : Type} (p q : α → Bool) (l : List α)
    (h : ∀ a, p a = true → q a = true) : l.countP p ≤ l.countP q := by
  induction l with
  | nil => simp [List.countP_nil]
  | cons a l ih =>
    rw [List.countP_cons, List.countP_cons]
    by_cases hp : p a = true
    · rw [hp, h a hp]
      omega
    · have : p a = false := by
        cases hpa : p a
        · rfl
        · exact absurd hpa hp
      rw [this]
      simp only [if_false, Bool.false_eq_true, if_neg, not_false_iff, add_zero]
      split <;> omega

theorem countP_add_countP_compl {α : Type} (p q : α → Bool) (l : List α)
    (h : ∀ a, q a = !p a) : l.countP p + l.countP q = l.length := by
  induction l with
  | nil => simp [List.countP_nil]
  | cons a l ih =>
    rw [List.countP_cons, List.countP_cons, h a, List.length_cons]
    cases hp : p a <;> simp <;> omega

theorem countP_le_length {α : Type} (p : α → Bool) (l : List α) :
    l.countP p ≤ l.length := by
  induction l with
  | nil => simp [List.countP_nil]
  | cons a l ih =>
    rw [List.countP_cons, List.length_cons]
    split <;> omega

theorem wordlistOutcome_fst (cli : Cli) (pass : String) (lines : List String)
    (info0 : String) :
    (wordlistOutcome cli pass lines info0).1 =
      some (match findBestSimilarity pass lines with
        | none => false
        | some (_, score) => decide (score < collisionThreshold cli)) := rfl

theorem collisionsTest_fst_of_corpus (fs : String → Option String)
    (raw : String) (cli : Cli) (pass : String) (corpus : List String)
    (h : corpusOf fs raw cli = some corpus) :
    (collisionsTest fs raw cli pass).1 =
      some (match findBestSimilarity pass corpus with
        | none => false
        | some (_, score) => decide (score < collisionThreshold cli)) := by
  unfold corpusOf at h
  unfold collisionsTest
  cases hw : cli.wordlist with
  | none =>
    rw [hw] at h
    have h2 : some (internalWordlist raw) = some corpus := h
    cases h2
    exact wordlistOutcome_fst ..
  | some path =>
    rw [hw] at h
    have h2 : (fs path).map rustLines = some corpus := h
    show (match fs path with
      | none => (some false, readFailMsg path)
      | some content => wordlistOutcome cli pass (rustLines content) "").1 = _
    cases hf : fs path with
    | none => rw [hf] at h2; cases h2
    | some content =>
      rw [hf] at h2
      have h3 : some (rustLines content) = some corpus := h2
      cases h3
      exact wordlistOutcome_fst ..

theorem collisionThreshold_le (cli : Cli) :
    collisionThreshold cli ≤ 99 / 100 := by
  unfold collisionThreshold
  have h : (min (cli.similarity.getD 97) 99 : Nat) ≤ 99 := min_le_right _ _
  have h2 : ((min (cli.similarity.getD 97) 99 : Nat) : ℚ) ≤ 99 := by
    exact_mod_cast h
  linarith

/-!
## Claim theorems
-/

/-- Claim C1: for the wordlist-collision rule with a non-empty corpus (so a
best match exists), the effective threshold is
`min(configured_similarity_or_default_97, 99) / 100`; the rule returns
`Fail` exactly when the best-match score is ≥ that threshold and `Pass`
exactly when the score is strictly below it. -/
theorem c1_wordlist_threshold (fs : String → Option String) (raw : String)
    (cli : Cli) (pass entry : String) (corpus : List String) (score : ℚ)
    (h1 : corpusOf fs raw cli = some corpus)
    (h2 : findBestSimilarity pass corpus = some (entry, score)) :
    ((collisionsTest fs raw cli pass).1 = some false ↔
      ((min (cli.similarity.getD 97) 99 : Nat) : ℚ) / 100 ≤ score) ∧
    ((collisionsTest fs raw cli pass).1 = some true ↔
      score < ((min (cli.similarity.getD 97) 99 : Nat) : ℚ) / 100) := by
  have hθ : collisionThreshold cli =
      ((min (cli.similarity.getD 97) 99 : Nat) : ℚ) / 100 := rfl
  have hf := collisionsTest_fst_of_corpus fs raw cli pass corpus h1
  rw [h2] at hf
  rw [hf, ← hθ]
  constructor
  · constructor
    · intro hc
      have hd := Option.some.inj hc
      simp only at hd
      have : ¬ (score < collisionThreshold cli) := by
        intro hl
        simp [hl] at hd
      exact le_of_not_lt this
    · intro hle
      have : decide (score < collisionThreshold cli) = false :=
        decide_eq_false (not_lt.mpr hle)
      simp only [this]
  · constructor
    · intro hc
      have hd := Option.some.inj hc
      simp only at hd
      exact of_decide_eq_true hd
    · intro hlt
      have : decide (score < collisionThreshold cli) = true := decide_eq_true hlt
      simp only [this]

/-- Concrete instance of C1: default configuration, embedded wordlist
baked from `"ab"`, password `"ab"` (best match `"ab"`, score 1): the rule
fails. -/
theorem c1_wordlist_threshold_witness :
    (collisionsTest (fun _ => none) "ab" {} "ab").1 = some false :=
  (c1_wordlist_threshold (fun _ => none) "ab" {} "ab" "ab" ["ab"]
    (compareSimilarity "ab" "ab") (by decide) rfl).1.mpr
    (by rw [compareSimilarity_self]; norm_num)

/-- Claim C4: with an empty corpus (`best_match` returns no match), the
wordlist-collision rule's outcome is `Fail` (`Some(false)`), not `Pass` or
`Ignored`. -/
theorem c4_empty_corpus_fail (fs : String → Option String) (raw : String)
    (cli : Cli) (pass : String) (h : corpusOf fs raw cli = some []) :
    findBestSimilarity pass [] = none ∧
    (collisionsTest fs raw cli pass).1 = some false := by
  refine ⟨rfl, ?_⟩
  have hf := collisionsTest_fst_of_corpus fs raw cli pass [] h
  rw [hf]
  simp [findBestSimilarity_nil]

/-- Concrete instance of C4: an external wordlist that reads as the empty
blob yields an empty corpus and the rule fails. -/
theorem c4_empty_corpus_fail_witness :
    findBestSimilarity "x" [] = none ∧
    (collisionsTest (fun _ => some "") "" {wordlist := some "wl"} "x").1 =
      some false :=
  c4_empty_corpus_fail (fun _ => some "") "" {wordlist := some "wl"} "x"
    (by decide)

/-- Claim C9: whatever the configuration (a configured similarity of 100
included), if the password occurs verbatim in the resolved corpus, the
wordlist-collision rule returns `Fail`: the threshold is clamped to at most
99/100 while an exact match scores 1. -/
theorem c9_exact_match_fails (fs : String → Option String) (raw : String)
    (cli : Cli) (pass : String) (corpus : List String)
    (h1 : corpusOf fs raw cli = some corpus) (h2 : pass ∈ corpus) :
    (collisionsTest fs raw cli pass).1 = some false := by
  have hne : corpus ≠ [] := by rintro rfl; cases h2
  obtain ⟨e, sc, hbest, hbound⟩ := findBestSimilarity_of_ne_nil pass corpus hne
  have h1sc : (1 : ℚ) ≤ sc :=
    calc (1 : ℚ) = compareSimilarity pass pass :=
          (compareSimilarity_self pass).symm
      _ ≤ sc := hbound pass h2
  have hθ := collisionThreshold_le cli
  have hnlt : ¬ (sc < collisionThreshold cli) := by
    intro hlt
    linarith
  have hf := collisionsTest_fst_of_corpus fs raw cli pass corpus h1
  rw [hbest] at hf
  rw [hf]
  simp [hnlt]

/-- Concrete instance of C9: similarity configured to 100, embedded
wordlist baked from `"pw\x0aqw"`, password `"pw"` is an exact entry: the
rule fails. -/
theorem c9_exact_match_fails_witness :
    (collisionsTest (fun _ => none) "pw\nqw" {similarity := some 100}
      "pw").1 = some false :=
  c9_exact_match_fails (fun _ => none) "pw\nqw" {similarity := some 100}
    "pw" ["pw", "qw"] (by decide) (by decide)

/-- Claim C5: a configured wordlist path that cannot be read makes the
wordlist-collision rule fail (outcome `Some(false)`, never `Ignored`) with
the detail naming the unreadable path; the failure is confined to that
rule: the first three rules' results do not depend on the file system at
all, and the run still produces all four outcomes. -/
theorem c5_io_error_confined (fs fs2 : String → Option String)
    (raw : String) (cli : Cli) (pass path : String)
    (h1 : cli.wordlist = some path) (h2 : fs path = none) :
    collisionsTest fs raw cli pass = (some false, readFailMsg path) ∧
    (runAll fs raw cli pass).take 3 = (runAll fs2 raw cli pass).take 3 ∧
    (runAll fs raw cli pass).length = totalTests fs raw ∧
    totalTests fs raw = 4 := by
  refine ⟨?_, rfl, rfl, rfl⟩
  unfold collisionsTest
  rw [h1]
  show (match fs path with
    | none => (some false, readFailMsg path)
    | some content => wordlistOutcome cli pass (rustLines content) "") = _
  rw [h2]

/-- Concrete instance of C5: path `"words.txt"` unreadable, the rule fails
with the detail naming it. -/
theorem c5_io_error_confined_witness :
    collisionsTest (fun _ => none) "" {wordlist := some "words.txt"} "x" =
      (some false, readFailMsg "words.txt") :=
  (c5_io_error_confined (fun _ => none) (fun _ => some "") ""
    {wordlist := some "words.txt"} "x" "words.txt" rfl rfl).1

theorem minLengthTest_fst_isSome (cli : Cli) (pass : String) :
    ((minLengthTest cli pass).1).isSome = true := rfl

theorem numbersTest_fst_isSome (cli : Cli) (pass : String) :
    ((numbersTest cli pass).1).isSome = true := rfl

theorem quirkyTest_fst_isSome (cli : Cli) (pass : String) :
    ((quirkyTest cli pass).1).isSome = true := rfl

theorem collisionsTest_fst_isSome (fs : String → Option String)
    (raw : String) (cli : Cli) (pass : String) :
    ((collisionsTest fs raw cli pass).1).isSome = true := by
  unfold collisionsTest
  cases cli.wordlist with
  | none => rfl
  | some path =>
    show ((match fs path with
      | none => (some false, readFailMsg path)
      | some content => wordlistOutcome cli pass (rustLines content)
          "").1).isSome = true
    cases fs path with
    | none => rfl
    | some content => rfl

/-- Claim C6: a rule whose identifier is in the ignore set has outcome
`None` (`Ignored`) and its closure is never invoked (the result does not
depend on it); ignored rules count toward the total but not the enabled
count, never toward the passed count, and enabled = total − ignored on
every run. -/
theorem c6_ignored_rules (fs : String → Option String) (raw : String)
    (cli : Cli) (pass : String) :
    (∀ t ∈ testsList fs raw, ignoredIn cli t.ignore = true →
      (runTest cli pass t).1 = none ∧
      ∀ f, runTest cli pass ⟨t.name, f, t.ignore⟩ = runTest cli pass t) ∧
    enabledCount fs raw cli pass + ignoredOutcomeCount fs raw cli pass =
      totalTests fs raw ∧
    enabledCount fs raw cli pass =
      totalTests fs raw - ignoredOutcomeCount fs raw cli pass ∧
    successCount fs raw cli pass ≤ enabledCount fs raw cli pass := by
  have hcompl : enabledCount fs raw cli pass +
      ignoredOutcomeCount fs raw cli pass = totalTests fs raw := by
    unfold enabledCount ignoredOutcomeCount totalTests
    have h := countP_add_countP_compl (fun r : Option Bool × String => (r.1).isSome)
      (fun r : Option Bool × String => r.1 = none) (runAll fs raw cli pass)
      (fun r => by obtain ⟨o, s⟩ := r; cases o <;> rfl)
    rw [h]
    simp [runAll]
  refine ⟨?_, hcompl, by omega, ?_⟩
  · intro t ht hig
    constructor
    · simp [runTest, hig]
    · intro f
      simp [runTest, hig]
  · unfold successCount enabledCount
    apply countP_le_of_imp
    intro r hr
    have h : r.1 = some true := of_decide_eq_true hr
    rw [h]
    rfl

/-- Claim C10: on every run, passed ≤ enabled ≤ total and the total number
of rules is 4. -/
theorem c10_count_bounds (fs : String → Option String) (raw : String)
    (cli : Cli) (pass : String) :
    successCount fs raw cli pass ≤ enabledCount fs raw cli pass ∧
    enabledCount fs raw cli pass ≤ totalTests fs raw ∧
    totalTests fs raw = 4 := by
  refine ⟨?_, ?_, rfl⟩
  · unfold successCount enabledCount
    apply countP_le_of_imp
    intro r hr
    have h : r.1 = some true := of_decide_eq_true hr
    rw [h]
    rfl
  · unfold enabledCount totalTests
    calc (runAll fs raw cli pass).countP (fun r => (r.1).isSome) ≤
        (runAll fs raw cli pass).length := countP_le_length _ _
      _ = (testsList fs raw).length := by simp [runAll]

/-- Counterexample to C2 as stated: `"éééé"` has 4 Unicode scalar values
(so the claimed codepoint-count rule would fail it against the default
minimum of 8), but its UTF-8 byte length is 8 and the rule passes it. -/
theorem c2_min_length_counterexample :
    ("éééé" : String).length = 4 ∧ (4 : Nat) < 8 ∧
    utf8Len "éééé" = 8 ∧
    minLengthTest {} "éééé" = (some true, "") := by
  refine ⟨by decide, by omega, by decide, by decide⟩

/-- Claim C2 as amended: the minimum-length rule measures the password by
its UTF-8 byte count (`pass.len()`), not its codepoint count; it passes
exactly when that byte count reaches the configured minimum (default 8)
and otherwise fails with a detail carrying the actual and required
lengths. -/
theorem c2_min_length_bytes (cli : Cli) (pass : String) :
    ((minLengthTest cli pass).1 = some true ↔
      cli.minLength.getD DEFAULT_MIN_LENGTH ≤ utf8Len pass) ∧
    ((minLengthTest cli pass).1 = some false ↔
      utf8Len pass < cli.minLength.getD DEFAULT_MIN_LENGTH) ∧
    (cli.minLength.getD DEFAULT_MIN_LENGTH ≤ utf8Len pass →
      minLengthTest cli pass = (some true, "")) ∧
    (∀ len mn : Nat, len = utf8Len pass →
      mn = cli.minLength.getD DEFAULT_MIN_LENGTH → len < mn →
      minLengthTest cli pass =
        (some false, s!"Password too short: {len}/{mn} characters")) := by
  by_cases h : cli.minLength.getD DEFAULT_MIN_LENGTH ≤ utf8Len pass
  · have hd : decide (utf8Len pass ≥ cli.minLength.getD DEFAULT_MIN_LENGTH) =
        true := decide_eq_true h
    have hc : minLengthTest cli pass = (some true, "") := by
      simp [minLengthTest, hd]
    refine ⟨?_, ?_, fun _ => hc, ?_⟩
    · rw [hc]
      simp [h]
    · rw [hc]
      simp
      omega
    · intro len mn hlen hmn hlt
      subst hlen
      subst hmn
      omega
  · have hd : decide (utf8Len pass ≥ cli.minLength.getD DEFAULT_MIN_LENGTH) =
        false := decide_eq_false (by omega)
    refine ⟨?_, ?_, ?_, ?_⟩
    · simp [minLengthTest, hd]
      omega
    · simp [minLengthTest, hd]
      omega
    · intro hle
      omega
    · intro len mn hlen hmn hlt
      subst hlen
      subst hmn
      simp [minLengthTest, hd]

/-- Counterexample to C7 as stated: on an all-letter password the rule
does fail, but its exact detail is the source's `"No numeric chacacters in
password"`, not the claimed `"No numeric characters in password"`. -/
theorem c7_digit_detail_counterexample :
    numbersTest {} "abcdef" =
      (some false, "No numeric chacacters in password") ∧
    "No numeric chacacters in password" ≠
      "No numeric characters in password" := by
  refine ⟨by decide, by decide⟩

/-- Claim C7 as amended: the digit rule passes exactly when some character
of the password is an ASCII digit, and otherwise fails with the exact
detail `"No numeric chacacters in password"` (sic). -/
theorem c7_digit_rule (cli : Cli) (pass : String) :
    ((numbersTest cli pass).1 = some true ↔
      ∃ c ∈ pass.data, isAsciiDigit c = true) ∧
    ((numbersTest cli pass).1 = some false ↔
      ∀ c ∈ pass.data, isAsciiDigit c = false) ∧
    (pass.data.any isAsciiDigit = true →
      numbersTest cli pass = (some true, "")) ∧
    (pass.data.any isAsciiDigit = false →
      numbersTest cli pass =
        (some false, "No numeric chacacters in password")) := by
  by_cases h : pass.data.any isAsciiDigit = true
  · have hc : numbersTest cli pass = (some true, "") := by
      simp [numbersTest, h]
    refine ⟨?_, ?_, fun _ => hc, ?_⟩
    · rw [hc]
      exact iff_of_true rfl (List.any_eq_true.mp h)
    · rw [hc]
      refine iff_of_false (by simp) ?_
      obtain ⟨c, hm, hd⟩ := List.any_eq_true.mp h
      intro hall
      rw [hall c hm] at hd
      cases hd
    · intro hf
      rw [h] at hf
      cases hf
  · have hfalse : pass.data.any isAsciiDigit = false := by
      cases hx : pass.data.any isAsciiDigit
      · rfl
      · exact absurd hx h
    have hc : numbersTest cli pass =
        (some false, "No numeric chacacters in password") := by
      simp [numbersTest, hfalse]
    refine ⟨?_, ?_, ?_, fun _ => hc⟩
    · rw [hc]
      refine iff_of_false (by simp) ?_
      intro hex
      obtain ⟨c, hm, hd⟩ := hex
      have := List.any_eq_true.mpr ⟨c, hm, hd⟩
      rw [hfalse] at this
      cases this
    · rw [hc]
      refine iff_of_true rfl ?_
      intro c hm
      cases hd : isAsciiDigit c
      · rfl
      · have := List.any_eq_true.mpr ⟨c, hm, hd⟩
        rw [hfalse] at this
        cases this
    · intro ht
      rw [hfalse] at ht
      cases ht

/-- Counterexample to C3 as stated: with all four rules ignored the summary
line carries `NaN` (the rendering of the IEEE `0.0 / 0.0` the code
computes), not an explicit sentinel such as `"N/A"`. -/
theorem c3_nan_counterexample :
    enabledCount (fun _ => none) ""
      {ignore := some [Ignore.MinimumChars, Ignore.Numbers,
        Ignore.SpecialChars, Ignore.WordlistCollisions]} "x" = 0 ∧
    percentF32 0 0 = F32Val.nan ∧
    formatF32 (percentF32 0 0) = "NaN" ∧
    summaryLine (fun _ => none) ""
      {ignore := some [Ignore.MinimumChars, Ignore.Numbers,
        Ignore.SpecialChars, Ignore.WordlistCollisions]} "x" =
      "Passed 0 out of 0 tests (NaN%), 4 ignored" := by
  refine ⟨by decide, rfl, rfl, by decide⟩

/-- Claim C3 as amended: when every rule is ignored (enabled = 0, hence
passed = 0) the reported percentage is the NaN produced by the `f32`
division `0.0 / 0.0`, rendered as `NaN` in the summary line; no sentinel is
substituted. -/
theorem c3_all_ignored_nan (fs : String → Option String) (raw : String)
    (cli : Cli) (pass : String) (h : enabledCount fs raw cli pass = 0) :
    successCount fs raw cli pass = 0 ∧
    percentF32 (successCount fs raw cli pass)
      (enabledCount fs raw cli pass) = F32Val.nan ∧
    summaryLine fs raw cli pass =
      "Passed 0 out of 0 tests (NaN%), 4 ignored" := by
  have hle : successCount fs raw cli pass ≤ enabledCount fs raw cli pass := by
    unfold successCount enabledCount
    apply countP_le_of_imp
    intro r hr
    have h2 : r.1 = some true := of_decide_eq_true hr
    rw [h2]
    rfl
  have hs : successCount fs raw cli pass = 0 := by omega
  refine ⟨hs, ?_, ?_⟩
  · rw [hs, h]
    rfl
  · have ht : totalTests fs raw = 4 := rfl
    unfold summaryLine
    rw [hs, h, ht]
    decide

/-- Concrete instance of the amended C3 at a configuration ignoring all
four rules. -/
theorem c3_all_ignored_nan_witness :
    summaryLine (fun _ => none) ""
      {ignore := some [Ignore.MinimumChars, Ignore.Numbers,
        Ignore.SpecialChars, Ignore.WordlistCollisions]} "x" =
      "Passed 0 out of 0 tests (NaN%), 4 ignored" :=
  (c3_all_ignored_nan (fun _ => none) ""
    {ignore := some [Ignore.MinimumChars, Ignore.Numbers,
      Ignore.SpecialChars, Ignore.WordlistCollisions]} "x" (by decide)).2.2

/-- Counterexample to C8 as stated: an external wordlist blob that ends in
a carriage return with no final newline produces an entry that keeps its
trailing carriage return. -/
theorem c8_trailing_cr_counterexample :
    corpusOf (fun p => if p = "wl" then some "abc\x0d" else none) ""
      {wordlist := some "wl"} = some ["abc\x0d"] ∧
    ("abc\x0d" : String).data.getLast? = some '\x0d' := by
  refine ⟨by decide, by decide⟩

/-- Claim C8 as amended: the embedded wordlist is baked with every carriage
return removed; the external blob is split on newline boundaries with
exactly one trailing carriage return stripped from each newline-terminated
line (a final empty segment from a trailing newline is dropped), and a
carriage return not immediately followed by a newline — in particular one
ending a blob that lacks a final newline — is kept: `rustLines` coincides
with that normalization (`altLines`). -/
theorem c8_line_normalization (raw blob : String) :
    (∀ l ∈ internalWordlist raw, '\x0d' ∉ l.data) ∧
    rustLines blob = altLines blob :=
  ⟨internalWordlist_no_cr raw, rustLines_eq_altLines blob⟩
